import Mathlib

/-!
Verification development for the primitive-cell search of `src/primitive.c`.

The code is shallowly embedded over exact rationals (`ℚ` in place of C
`double`): all data is finite (3×3 matrices, short vector lists) and every
operation of the file is a bounded deterministic computation, so each C
function becomes a computable Lean function.  External collaborators that are
declared in headers but whose sources are not part of this file
(`sym_get_pure_translation`, `sym_reduce_pure_translation`,
`del_delaunay_reduce`, `cel_trim_cell`) are abstracted as function-valued
parameters bundled in a `Collaborators` record.  The small linear-algebra
primitives from `mathfunc.h` (3×3 determinant, inverse, multiply, nearest
integer, modulo-1) are likewise not part of this file; they are modelled from
the spec's description of MatrixOps, with doc comments marking each one.
-/

namespace Spglib

/-- A 3-vector of rationals (a fractional coordinate or a lattice row). -/
abbrev Vec3 : Type := Fin 3 → ℚ

/-- A real 3×3 matrix (`double lattice[3][3]`), row-major as in the C code. -/
abbrev Mat3 : Type := Fin 3 → Fin 3 → ℚ

/-- An integer 3×3 matrix (`int mat[3][3]`). -/
abbrev Mat3i : Type := Fin 3 → Fin 3 → ℤ

/-- The zero vector, used as the (never reached) default for list indexing. -/
def vzero : Vec3 := fun _ => 0

/-- Modelled from the spec: MatrixOps 3×3 determinant
(`mat_get_determinant_d3`, cofactor expansion along the first row). -/
def det3 (m : Mat3) : ℚ :=
  m 0 0 * (m 1 1 * m 2 2 - m 1 2 * m 2 1)
    - m 0 1 * (m 1 0 * m 2 2 - m 1 2 * m 2 0)
    + m 0 2 * (m 1 0 * m 2 1 - m 1 1 * m 2 0)

/-- Modelled from the spec: MatrixOps 3×3 integer determinant
(`mat_get_determinant_i3`). -/
def det3i (m : Mat3i) : ℤ :=
  m 0 0 * (m 1 1 * m 2 2 - m 1 2 * m 2 1)
    - m 0 1 * (m 1 0 * m 2 2 - m 1 2 * m 2 0)
    + m 0 2 * (m 1 0 * m 2 1 - m 1 1 * m 2 0)

/-- Modelled from the spec: MatrixOps 3×3 matrix product
(`mat_multiply_matrix_d3`). -/
def matMul (a b : Mat3) : Mat3 :=
  fun i j => a i 0 * b 0 j + a i 1 * b 1 j + a i 2 * b 2 j

/-- Modelled from the spec: MatrixOps matrix–vector product
(`mat_multiply_matrix_vector_d3`). -/
def mulVec (m : Mat3) (v : Vec3) : Vec3 :=
  fun i => m i 0 * v 0 + m i 1 * v 1 + m i 2 * v 2

/-- Modelled from the spec: MatrixOps 3×3 inverse (`mat_inverse_matrix_d3`),
written with cyclic `Fin 3` indices: entry `(i, j)` is the `(j, i)` cofactor
divided by the determinant.  On a singular matrix the entries divide by zero,
which in `ℚ` yields junk values, matching the C code's ignored error return. -/
def matInv (m : Mat3) : Mat3 :=
  fun i j =>
    (m (j + 1) (i + 1) * m (j + 2) (i + 2) - m (j + 1) (i + 2) * m (j + 2) (i + 1)) / det3 m

/-- The 3×3 identity matrix. -/
def idMat : Mat3 := fun i j => if i = j then 1 else 0

/-- Modelled from the spec: MatrixOps nearest-integer rounding applied
entrywise (`mat_cast_matrix_3d_to_3i`, built on `mat_Nint`). -/
def matNint3 (m : Mat3) : Mat3i := fun i j => round (m i j)

/-- Modelled from the spec: MatrixOps integer-to-real cast applied entrywise
(`mat_cast_matrix_3i_to_3d`). -/
def castMat (m : Mat3i) : Mat3 := fun i j => (m i j : ℚ)

/-- Modelled from the spec: MatrixOps modulo-1 fold (`mat_Dmod1`): recentre by
the nearest integer and shift negatives up by one, landing in `[0, 1)`.  In
exact rational arithmetic the spec's tolerance-aware boundary snap degenerates
to exact folding (an exact 1 folds to 0). -/
def Dmod1 (x : ℚ) : ℚ :=
  if x - round x < 0 then x - round x + 1 else x - round x

/-- The `Cell` record: lattice matrix, fractional coordinates, type labels. -/
structure Cell where
  lattice : Mat3
  position : List Vec3
  types : List ℤ

instance : DecidableEq Cell := fun x y =>
  decidable_of_iff (x.lattice = y.lattice ∧ x.position = y.position ∧ x.types = y.types)
    (by cases x; cases y; simp)

/-- `cell->size`: the number of atoms. -/
def Cell.size (c : Cell) : ℕ := c.position.length

/-- The `Primitive` result record of `primitive.h`, in its populated form. -/
structure Primitive where
  cell : Cell
  mapping_table : List ℕ
  t_mat : Mat3
  tolerance : ℚ
  angle_tolerance : ℚ

instance : DecidableEq Primitive := fun x y =>
  decidable_of_iff (x.cell = y.cell ∧ x.mapping_table = y.mapping_table ∧ x.t_mat = y.t_mat
      ∧ x.tolerance = y.tolerance ∧ x.angle_tolerance = y.angle_tolerance)
    (by cases x; cases y; simp)

/-- The external collaborators used by `primitive.c` but defined elsewhere in
the repository (symmetry.c, delaunay.c, cell.c); each is abstracted as an
arbitrary function returning `none` on failure (NULL in C). -/
structure Collaborators where
  sym_get_pure_translation : Cell → ℚ → Option (List Vec3)
  sym_reduce_pure_translation : Cell → List Vec3 → ℚ → ℚ → Option (List Vec3)
  del_delaunay_reduce : Mat3 → ℚ → Option Mat3
  cel_trim_cell : Mat3 → Cell → ℚ → Option (Cell × List ℕ)

/-- `#define REDUCE_RATE 0.95`. -/
def REDUCE_RATE : ℚ := 19 / 20

/-- `#define NUM_ATTEMPT 20`. -/
def NUM_ATTEMPT : ℕ := 20

/-- The unit lattice vector along axis `i` (rows written by the second loop of
`get_translation_candidates`: entry `j` is 1 iff `i = j`). -/
def unitVec (i : ℕ) : Vec3 := fun j => if i = (j : ℕ) then 1 else 0

/-- `get_translation_candidates` (primitive.c:471): copy entries
`1 .. multi-1` of the pure-translation list, then append the three unit
lattice vectors of the original cell. -/
def get_translation_candidates (pure_trans : List Vec3) : List Vec3 :=
  (List.range (pure_trans.length - 1)).map (fun i => pure_trans.getD (i + 1) vzero)
    ++ (List.range 3).map unitVec

/-- The index triples `(i, j, k)` with `i < j < k < n`, in the order the three
nested `for` loops of `get_primitive_lattice_vectors` visit them. -/
def triples (n : ℕ) : List (ℕ × ℕ × ℕ) :=
  (List.range n).flatMap fun i =>
    (List.range n).flatMap fun j =>
      (List.range n).flatMap fun k =>
        if i < j ∧ j < k then [(i, j, k)] else []

/-- The volume `|det tmp_lattice|` of primitive.c:422-431: the rows of
`tmp_lattice` are the three candidate vectors taken into Cartesian space by
the original lattice. -/
def tripleVolume (lattice : Mat3) (a b c : Vec3) : ℚ :=
  |det3 ![mulVec lattice a, mulVec lattice b, mulVec lattice c]|

/-- The acceptance test of primitive.c:432-433: the triple's volume exceeds
`symprec` and `initial_volume / volume` rounds to `vectors->size - 2`. -/
def stageBQual (vectors : List Vec3) (cell : Cell) (symprec : ℚ) (t : ℕ × ℕ × ℕ) : Bool :=
  let volume := tripleVolume cell.lattice (vectors.getD t.1 vzero)
    (vectors.getD t.2.1 vzero) (vectors.getD t.2.2 vzero)
  decide (symprec < volume)
    && decide (round (|det3 cell.lattice| / volume) = (vectors.length : ℤ) - 2)

/-- The triple accepted by the nested loops of
`get_primitive_lattice_vectors`: the first qualifying triple in the loop
order. -/
def stageBFind (vectors : List Vec3) (cell : Cell) (symprec : ℚ) : Option (ℕ × ℕ × ℕ) :=
  (triples vectors.length).find? (stageBQual vectors cell symprec)

/-- primitive.c:451-455: `relative_lattice[j][i] = min_vectors[i][j]`; the
columns of the relative lattice are the three accepted candidate vectors. -/
def relFromTriple (vectors : List Vec3) (t : ℕ × ℕ × ℕ) : Mat3 :=
  fun r c =>
    ![vectors.getD t.1 vzero, vectors.getD t.2.1 vzero, vectors.getD t.2.2 vzero] c r

/-- primitive.c:457-465: invert the accepted relative lattice, round to an
integer matrix, and use the rounded relation in place of the raw one exactly
when the integer determinant's magnitude equals `vectors->size - 2`. -/
def cleanupRel (n : ℕ) (rel : Mat3) : Mat3 :=
  let inv_mat_int := matNint3 (matInv rel)
  if |det3i inv_mat_int| = (n : ℤ) - 2 then matInv (castMat inv_mat_int) else rel

/-- `get_primitive_lattice_vectors` (primitive.c:402): search the index
triples for the first qualifying one and return
`cell->lattice * relative_lattice` built from it; `none` is the C return 0. -/
def get_primitive_lattice_vectors (vectors : List Vec3) (cell : Cell) (symprec : ℚ) :
    Option Mat3 :=
  match stageBFind vectors cell symprec with
  | none => none
  | some t => some (matMul cell.lattice (cleanupRel vectors.length (relFromTriple vectors t)))

/-- Modelled from the spec: the Stage B acceptance test as claim C1 words it,
with the round of `V0 / V` compared against the pure-translation group order
minus two rather than against `vectors->size - 2`. -/
def stageBQualClaimed (groupOrder : ℕ) (vectors : List Vec3) (cell : Cell) (symprec : ℚ)
    (t : ℕ × ℕ × ℕ) : Bool :=
  let volume := tripleVolume cell.lattice (vectors.getD t.1 vzero)
    (vectors.getD t.2.1 vzero) (vectors.getD t.2.2 vzero)
  decide (symprec < volume)
    && decide (round (|det3 cell.lattice| / volume) = (groupOrder : ℤ) - 2)

/-- Modelled from the spec: the Stage B search as claim C1 words it
(acceptance target = group order minus two). -/
def get_primitive_lattice_vectors_claimed (groupOrder : ℕ) (vectors : List Vec3) (cell : Cell)
    (symprec : ℚ) : Option Mat3 :=
  match (triples vectors.length).find? (stageBQualClaimed groupOrder vectors cell symprec) with
  | none => none
  | some t => some (matMul cell.lattice (cleanupRel vectors.length (relFromTriple vectors t)))

/-- Modelled from the spec: the integer cleanup as claim C8 words it, with the
integer determinant compared against the group order minus two. -/
def cleanupRelClaimed (groupOrder : ℕ) (rel : Mat3) : Mat3 :=
  let inv_mat_int := matNint3 (matInv rel)
  if |det3i inv_mat_int| = (groupOrder : ℤ) - 2 then matInv (castMat inv_mat_int) else rel

/-- Modelled from the spec: `get_primitive_lattice_vectors` with the cleanup
check as claim C8 words it (source acceptance, claimed cleanup target). -/
def get_primitive_lattice_vectors_claimedCleanup (groupOrder : ℕ) (vectors : List Vec3)
    (cell : Cell) (symprec : ℚ) : Option Mat3 :=
  match stageBFind vectors cell symprec with
  | none => none
  | some t =>
    some (matMul cell.lattice (cleanupRelClaimed groupOrder (relFromTriple vectors t)))

/-- The loop body of `get_primitive_lattice_vectors_iterative`
(primitive.c:331-389), with the attempt counter as structural fuel: run Stage
B on the candidates built from the current translation list; on failure hand
the current list and the current tolerance to `sym_reduce_pure_translation`
and recurse with the tolerance multiplied by `REDUCE_RATE`.  The returned
`ℕ` is `multi`, the translation count of the succeeding iteration. -/
def iterAux (C : Collaborators) (cell : Cell) (angle_tolerance : ℚ) :
    ℕ → ℚ → List Vec3 → Option (ℕ × Mat3)
  | 0, _, _ => none
  | fuel + 1, tolerance, pure_trans_reduced =>
    match get_primitive_lattice_vectors (get_translation_candidates pure_trans_reduced) cell
        tolerance with
    | some prim_lattice => some (pure_trans_reduced.length, prim_lattice)
    | none =>
      match C.sym_reduce_pure_translation cell pure_trans_reduced tolerance angle_tolerance with
      | none => none
      | some reduced => iterAux C cell angle_tolerance fuel (tolerance * REDUCE_RATE) reduced

/-- `get_primitive_lattice_vectors_iterative` (primitive.c:307): start from
`tolerance = symprec` with the pure translations copied unchanged, and allow
`NUM_ATTEMPT` iterations. -/
def get_primitive_lattice_vectors_iterative (C : Collaborators) (cell : Cell)
    (pure_trans : List Vec3) (symprec angle_tolerance : ℚ) : Option (ℕ × Mat3) :=
  iterAux C cell angle_tolerance NUM_ATTEMPT symprec pure_trans

/-- Modelled from the spec: the iterative search as claim C7 words it, the
tolerance handed to Stage B and to the refinement collaborator staying equal
to `symprec` on every iteration (no intra-stage decay). -/
def iterAuxClaimed (C : Collaborators) (cell : Cell) (angle_tolerance : ℚ) :
    ℕ → ℚ → List Vec3 → Option (ℕ × Mat3)
  | 0, _, _ => none
  | fuel + 1, tolerance, pure_trans_reduced =>
    match get_primitive_lattice_vectors (get_translation_candidates pure_trans_reduced) cell
        tolerance with
    | some prim_lattice => some (pure_trans_reduced.length, prim_lattice)
    | none =>
      match C.sym_reduce_pure_translation cell pure_trans_reduced tolerance angle_tolerance with
      | none => none
      | some reduced => iterAuxClaimed C cell angle_tolerance fuel tolerance reduced

/-- Modelled from the spec: wrapper of `iterAuxClaimed` at `NUM_ATTEMPT`
iterations, the claim-C7 counterpart of
`get_primitive_lattice_vectors_iterative`. -/
def get_primitive_lattice_vectors_iterative_claimed (C : Collaborators) (cell : Cell)
    (pure_trans : List Vec3) (symprec angle_tolerance : ℚ) : Option (ℕ × Mat3) :=
  iterAuxClaimed C cell angle_tolerance NUM_ATTEMPT symprec pure_trans

/-- The tolerances read by the iterations of `iterAux`, in order: each
iteration reads the single `tolerance` variable once for both its Stage B
call and its refinement call (primitive.c:344 and :371), and the variable is
multiplied by `REDUCE_RATE` only afterwards (primitive.c:387). -/
def iterTolTrace (C : Collaborators) (cell : Cell) (angle_tolerance : ℚ) :
    ℕ → ℚ → List Vec3 → List ℚ
  | 0, _, _ => []
  | fuel + 1, tolerance, pure_trans_reduced =>
    tolerance ::
      (match get_primitive_lattice_vectors (get_translation_candidates pure_trans_reduced) cell
          tolerance with
      | some _ => []
      | none =>
        match C.sym_reduce_pure_translation cell pure_trans_reduced tolerance angle_tolerance with
        | none => []
        | some reduced =>
          iterTolTrace C cell angle_tolerance fuel (tolerance * REDUCE_RATE) reduced)

/-- `get_cell_with_smallest_lattice` (primitive.c:222): Delaunay-reduce the
cell's own lattice, re-express every atom in the new basis with
`trans_mat = min_lattice⁻¹ * lattice`, and fold every coordinate by
`mat_Dmod1`; types are copied unchanged. -/
def get_cell_with_smallest_lattice (C : Collaborators) (cell : Cell) (symprec : ℚ) :
    Option Cell :=
  match C.del_delaunay_reduce cell.lattice symprec with
  | none => none
  | some min_lattice =>
    some { lattice := min_lattice
         , position := cell.position.map
             (fun p i => Dmod1 (mulVec (matMul (matInv min_lattice) cell.lattice) p i))
         , types := cell.types }

/-- `get_primitive_cell` (primitive.c:258): iterative vector search, Delaunay
reduction of the found lattice, then atom trimming; the trimmed cell comes
with the filled mapping table. -/
def get_primitive_cell (C : Collaborators) (cell : Cell) (pure_trans : List Vec3)
    (symprec angle_tolerance : ℚ) : Option (Cell × List ℕ) :=
  match get_primitive_lattice_vectors_iterative C cell pure_trans symprec angle_tolerance with
  | none => none
  | some (_, prim_lattice) =>
    match C.del_delaunay_reduce prim_lattice symprec with
    | none => none
    | some smallest_lattice => C.cel_trim_cell smallest_lattice cell symprec

/-- One attempt of the loop of `get_primitive` (primitive.c:172-203): find the
pure translations at the current tolerance; a one-element group takes the
trivial path (reduced own lattice, identity mapping), a larger group is
handed to `get_primitive_cell`. -/
def get_primitive_attempt (C : Collaborators) (cell : Cell) (tolerance angle_tolerance : ℚ) :
    Option (Cell × List ℕ) :=
  match C.sym_get_pure_translation cell tolerance with
  | none => none
  | some pure_trans =>
    if pure_trans.length = 1 then
      match get_cell_with_smallest_lattice C cell tolerance with
      | none => none
      | some c => some (c, List.range cell.size)
    else
      get_primitive_cell C cell pure_trans tolerance angle_tolerance

/-- The attempt loop of `get_primitive`: on failure multiply the tolerance by
`REDUCE_RATE` and retry; on success also report the tolerance of the
succeeding attempt (primitive.c:211-212). -/
def get_primitive_loop (C : Collaborators) (cell : Cell) (angle_tolerance : ℚ) :
    ℚ → ℕ → Option (Cell × List ℕ × ℚ)
  | _, 0 => none
  | tolerance, fuel + 1 =>
    match get_primitive_attempt C cell tolerance angle_tolerance with
    | some (c, m) => some (c, m, tolerance)
    | none => get_primitive_loop C cell angle_tolerance (tolerance * REDUCE_RATE) fuel

/-- `get_primitive` (primitive.c:152): allocate the result record (the
`allocOk` flag models the success of `prm_alloc_primitive`; on failure the C
code jumps to `notfound` before any attempt), run the attempt loop, and on
success assemble the record with the used tolerances and
`t_mat = primitive->cell->lattice * (cell->lattice)⁻¹`. -/
def get_primitive (C : Collaborators) (cell : Cell) (symprec angle_tolerance : ℚ)
    (allocOk : Bool) : Option Primitive :=
  if allocOk then
    match get_primitive_loop C cell angle_tolerance symprec NUM_ATTEMPT with
    | none => none
    | some (c, m, tolerance) =>
      some { cell := c
           , mapping_table := m
           , t_mat := matMul c.lattice (matInv cell.lattice)
           , tolerance := tolerance
           , angle_tolerance := angle_tolerance }
  else none

/-- `prm_get_primitive` (primitive.c:144), a direct wrapper. -/
def prm_get_primitive (C : Collaborators) (cell : Cell) (symprec angle_tolerance : ℚ)
    (allocOk : Bool) : Option Primitive :=
  get_primitive C cell symprec angle_tolerance allocOk

/-- Strict lexicographic order on index triples, the order in which the three
nested loops of `get_primitive_lattice_vectors` advance. -/
def lexLt (s t : ℕ × ℕ × ℕ) : Prop :=
  s.1 < t.1 ∨ (s.1 = t.1 ∧ (s.2.1 < t.2.1 ∨ (s.2.1 = t.2.1 ∧ s.2.2 < t.2.2)))

/-- A single-atom cell on the identity lattice, for concrete instantiation. -/
def cellI : Cell := { lattice := idMat, position := [vzero], types := [0] }

/-- Collaborators with a trivial (identity-only) translation group and an
identity Delaunay reduction. -/
def trivCollab : Collaborators :=
  { sym_get_pure_translation := fun _ _ => some [vzero]
  , sym_reduce_pure_translation := fun _ _ _ _ => none
  , del_delaunay_reduce := fun lattice _ => some lattice
  , cel_trim_cell := fun _ _ _ => none }

/-- Collaborators whose pure-translation search always fails. -/
def failCollab : Collaborators :=
  { sym_get_pure_translation := fun _ _ => none
  , sym_reduce_pure_translation := fun _ _ _ _ => none
  , del_delaunay_reduce := fun _ _ => none
  , cel_trim_cell := fun _ _ _ => none }

/-- Collaborators whose translation refinement returns its input unchanged. -/
def idReduceCollab : Collaborators :=
  { sym_get_pure_translation := fun _ _ => none
  , sym_reduce_pure_translation := fun _ v _ _ => some v
  , del_delaunay_reduce := fun _ _ => none
  , cel_trim_cell := fun _ _ _ => none }

/-- The translation `(1/2, 0, 0)` of a body-centred-style order-2 group. -/
def halfX : Vec3 := ![1/2, 0, 0]

/-- An order-2 pure-translation list: identity then `halfX`. -/
def ptOrder2 : List Vec3 := [vzero, halfX]

/-- The candidate list built from `ptOrder2` (4 vectors). -/
def cands4 : List Vec3 := get_translation_candidates ptOrder2

/-- A slightly perturbed half translation `(51/100, 0, 0)`. -/
def noisyHalfX : Vec3 := ![51/100, 0, 0]

/-- An order-2 pure-translation list with the perturbed translation. -/
def ptNoisy : List Vec3 := [vzero, noisyHalfX]

/-- The candidate list built from `ptNoisy`. -/
def candsNoisy : List Vec3 := get_translation_candidates ptNoisy

/-- An order-5 translation list whose candidates make the lexicographic triple
enumeration accept a unit-vector triple before an all-translation one. -/
def pt5 : List Vec3 := [vzero, ![2/5, 0, 0], ![0, 1/2, 0], ![4/5, 0, 0], ![0, 0, 1/2]]

/-- The candidate list built from `pt5` (7 vectors). -/
def cands7 : List Vec3 := get_translation_candidates pt5

/-- The cell that the trivial path produces from `trivCollab` and `cellI`:
the same lattice with every coordinate re-expressed and folded. -/
def cell0 : Cell :=
  { lattice := cellI.lattice
  , position := cellI.position.map
      (fun p i => Dmod1 (mulVec (matMul (matInv cellI.lattice) cellI.lattice) p i))
  , types := cellI.types }

/-- The `Primitive` record that `get_primitive` produces from `trivCollab` and
`cellI` at `symprec = 1` (trivial path, first attempt). -/
def p0 : Primitive :=
  { cell := cell0
  , mapping_table := List.range cellI.size
  , t_mat := matMul cell0.lattice (matInv cellI.lattice)
  , tolerance := 1
  , angle_tolerance := -1 }

lemma matMul_assoc (a b c : Mat3) : matMul (matMul a b) c = matMul a (matMul b c) := by
  funext i j
  simp only [matMul]
  ring

lemma matMul_idMat (a : Mat3) : matMul a idMat = a := by
  funext i j
  fin_cases j <;> simp [matMul, idMat, Fin.isValue]

lemma matInv_mul (b : Mat3) (hd : det3 b ≠ 0) : matMul (matInv b) b = idMat := by
  have hd' : b 0 0 * (b 1 1 * b 2 2 - b 1 2 * b 2 1)
      - b 0 1 * (b 1 0 * b 2 2 - b 1 2 * b 2 0)
      + b 0 2 * (b 1 0 * b 2 1 - b 1 1 * b 2 0) ≠ 0 := by
    simpa [det3] using hd
  funext i j
  fin_cases i <;> fin_cases j <;>
    (simp [matMul, matInv, det3, idMat, Fin.isValue]; field_simp; ring)

lemma matMul_matInv_cancel (a b : Mat3) (hd : det3 b ≠ 0) :
    matMul (matMul a (matInv b)) b = a := by
  rw [matMul_assoc, matInv_mul b hd, matMul_idMat]

lemma Dmod1_nonneg (x : ℚ) : 0 ≤ Dmod1 x := by
  have h := abs_sub_round x
  unfold Dmod1
  split <;> [linarith [abs_le.mp h]; linarith]

lemma Dmod1_lt_one (x : ℚ) : Dmod1 x < 1 := by
  have h : x - round x = Int.fract (x + 1/2) - 1/2 := by
    rw [round_eq, Int.fract]
    ring
  have h0 := Int.fract_nonneg (x + 1/2)
  have h1 := Int.fract_lt_one (x + 1/2)
  unfold Dmod1
  split <;> linarith

lemma Dmod1_one : Dmod1 1 = 0 := by
  unfold Dmod1
  norm_num

lemma mem_ite_singleton {α : Type} {p : Prop} [Decidable p] {x t : α} :
    (x ∈ if p then [t] else []) ↔ p ∧ x = t := by
  split <;> rename_i h <;> simp [h]

lemma mem_triples {n i j k : ℕ} : (i, j, k) ∈ triples n ↔ i < j ∧ j < k ∧ k < n := by
  simp only [triples, List.mem_flatMap, List.mem_range, mem_ite_singleton]
  constructor
  · rintro ⟨a, _, b, _, c, hc, ⟨hab, hbc⟩, heq⟩
    obtain ⟨rfl, rfl, rfl⟩ : i = a ∧ j = b ∧ k = c := by
      simpa [Prod.ext_iff] using heq
    exact ⟨hab, hbc, hc⟩
  · rintro ⟨hij, hjk, hkn⟩
    exact ⟨i, lt_trans (lt_trans hij hjk) hkn, j, lt_trans hjk hkn, k, hkn, ⟨hij, hjk⟩, rfl⟩

lemma pairwise_flatMap {α β : Type} {R : α → α → Prop} {S : β → β → Prop}
    {l : List α} {f : α → List β}
    (hl : l.Pairwise R) (hf : ∀ a ∈ l, (f a).Pairwise S)
    (hRS : ∀ a b, R a b → ∀ x ∈ f a, ∀ y ∈ f b, S x y) :
    (l.flatMap f).Pairwise S := by
  induction l with
  | nil => simp
  | cons a l ih =>
    rw [List.flatMap_cons, List.pairwise_append]
    refine ⟨hf a (List.mem_cons_self a l),
      ih hl.of_cons (fun b hb => hf b (List.mem_cons_of_mem _ hb)), ?_⟩
    intro x hx y hy
    rw [List.mem_flatMap] at hy
    obtain ⟨b, hb, hyb⟩ := hy
    exact hRS a b (List.rel_of_pairwise_cons hl hb) x hx y hyb

lemma triples_pairwise (n : ℕ) : (triples n).Pairwise lexLt := by
  unfold triples
  apply pairwise_flatMap (List.pairwise_lt_range n)
  · intro i _
    apply pairwise_flatMap (List.pairwise_lt_range n)
    · intro j _
      apply pairwise_flatMap (List.pairwise_lt_range n)
      · intro k _
        split <;> simp
      · intro k k' hkk' x hx y hy
        rw [mem_ite_singleton] at hx hy
        rw [hx.2, hy.2]
        exact Or.inr ⟨rfl, Or.inr ⟨rfl, hkk'⟩⟩
    · intro j j' hjj' x hx y hy
      simp only [List.mem_flatMap, mem_ite_singleton] at hx hy
      obtain ⟨k, _, _, rfl⟩ := hx
      obtain ⟨k', _, _, rfl⟩ := hy
      exact Or.inr ⟨rfl, Or.inl hjj'⟩
  · intro i i' hii' x hx y hy
    simp only [List.mem_flatMap, mem_ite_singleton] at hx hy
    obtain ⟨j, _, k, _, _, rfl⟩ := hx
    obtain ⟨j', _, k', _, _, rfl⟩ := hy
    exact Or.inl hii'

lemma find?_first {α : Type} {R : α → α → Prop} {p : α → Bool} :
    ∀ {l : List α}, l.Pairwise R → ∀ {a}, l.find? p = some a →
      ∀ b ∈ l, p b = true → b = a ∨ R a b := by
  intro l
  induction l with
  | nil => intro _ a h; simp at h
  | cons x xs ih =>
    intro hl a hfind b hb hpb
    cases hpx : p x with
    | true =>
      rw [List.find?_cons_of_pos _ hpx] at hfind
      obtain rfl : x = a := by injection hfind
      rcases List.mem_cons.mp hb with rfl | hbxs
      · exact Or.inl rfl
      · exact Or.inr (List.rel_of_pairwise_cons hl hbxs)
    | false =>
      rw [List.find?_cons_of_neg _ (by simp [hpx])] at hfind
      rcases List.mem_cons.mp hb with rfl | hbxs
      · rw [hpx] at hpb; cases hpb
      · exact ih hl.of_cons hfind b hbxs hpb

lemma range_map_getD (d : Vec3) : ∀ l : List Vec3,
    (List.range l.length).map (fun i => l.getD i d) = l := by
  intro l
  induction l with
  | nil => rfl
  | cons x xs ih =>
    rw [List.length_cons, List.range_succ_eq_map, List.map_cons, List.map_map]
    have hc : ((fun i => (x :: xs).getD i d) ∘ Nat.succ) = fun i => xs.getD i d := by
      funext i
      simp [List.getD_cons_succ]
    rw [hc, ih]
    rfl

lemma get_translation_candidates_cons (v : Vec3) (pt : List Vec3) :
    get_translation_candidates (v :: pt) = pt ++ [unitVec 0, unitVec 1, unitVec 2] := by
  unfold get_translation_candidates
  congr 1
  have h1 : (v :: pt).length - 1 = pt.length := by simp
  rw [h1]
  have h2 : (fun i => (v :: pt).getD (i + 1) vzero) = fun i => pt.getD i vzero := by
    funext i
    simp [List.getD_cons_succ]
  rw [h2, range_map_getD]

lemma get_cell_with_smallest_lattice_facts {C : Collaborators} {cell : Cell} {symprec : ℚ}
    {out : Cell} (h : get_cell_with_smallest_lattice C cell symprec = some out) :
    out.size = cell.size ∧ out.types = cell.types := by
  unfold get_cell_with_smallest_lattice at h
  cases hd : C.del_delaunay_reduce cell.lattice symprec with
  | none => rw [hd] at h; cases h
  | some min_lattice =>
    rw [hd] at h
    simp only [Option.some.injEq] at h
    obtain rfl := h.symm
    exact ⟨by simp [Cell.size], rfl⟩

lemma get_primitive_loop_some {C : Collaborators} {cell : Cell} {angle : ℚ} :
    ∀ {fuel : ℕ} {tol : ℚ} {c : Cell} {m : List ℕ} {t : ℚ},
      get_primitive_loop C cell angle tol fuel = some (c, m, t) →
      ∃ k, k < fuel ∧
        (∀ j, j < k → get_primitive_attempt C cell (tol * REDUCE_RATE ^ j) angle = none) ∧
        get_primitive_attempt C cell (tol * REDUCE_RATE ^ k) angle = some (c, m) ∧
        t = tol * REDUCE_RATE ^ k := by
  intro fuel
  induction fuel with
  | zero => intro tol c m t h; simp [get_primitive_loop] at h
  | succ n ih =>
    intro tol c m t h
    rw [get_primitive_loop] at h
    cases hatt : get_primitive_attempt C cell tol angle with
    | some cm =>
      obtain ⟨c', m'⟩ := cm
      rw [hatt] at h
      simp only [Option.some.injEq, Prod.mk.injEq] at h
      obtain ⟨rfl, rfl, rfl⟩ := h
      exact ⟨0, Nat.succ_pos n, by omega, by simpa using hatt, by simp⟩
    | none =>
      rw [hatt] at h
      obtain ⟨k, hk, hfail, hsucc, ht⟩ := ih h
      have hshift : ∀ j : ℕ, tol * REDUCE_RATE * REDUCE_RATE ^ j = tol * REDUCE_RATE ^ (j + 1) := by
        intro j; rw [pow_succ']; ring
      refine ⟨k + 1, by omega, ?_, ?_, ?_⟩
      · intro j hj
        cases j with
        | zero => simpa using hatt
        | succ j' => rw [← hshift j']; exact hfail j' (by omega)
      · rw [← hshift k]; exact hsucc
      · rw [← hshift k]; exact ht

lemma get_primitive_loop_none {C : Collaborators} {cell : Cell} {angle : ℚ} :
    ∀ {fuel : ℕ} {tol : ℚ},
      (∀ k, k < fuel → get_primitive_attempt C cell (tol * REDUCE_RATE ^ k) angle = none) →
      get_primitive_loop C cell angle tol fuel = none := by
  intro fuel
  induction fuel with
  | zero => intro tol _; rfl
  | succ n ih =>
    intro tol hfail
    rw [get_primitive_loop]
    have h0 : get_primitive_attempt C cell tol angle = none := by
      simpa using hfail 0 (Nat.succ_pos n)
    rw [h0]
    apply ih
    intro k hk
    have := hfail (k + 1) (by omega)
    rwa [pow_succ', ← mul_assoc] at this

lemma get_primitive_spec {C : Collaborators} {cell : Cell} {symprec angle : ℚ} {p : Primitive}
    (h : get_primitive C cell symprec angle true = some p) :
    ∃ k, k < NUM_ATTEMPT ∧
      (∀ j, j < k → get_primitive_attempt C cell (symprec * REDUCE_RATE ^ j) angle = none) ∧
      get_primitive_attempt C cell (symprec * REDUCE_RATE ^ k) angle
        = some (p.cell, p.mapping_table) ∧
      p.tolerance = symprec * REDUCE_RATE ^ k ∧
      p.angle_tolerance = angle ∧
      p.t_mat = matMul p.cell.lattice (matInv cell.lattice) := by
  unfold get_primitive at h
  simp only [if_true] at h
  cases hloop : get_primitive_loop C cell angle symprec NUM_ATTEMPT with
  | none => rw [hloop] at h; cases h
  | some cmt =>
    obtain ⟨c, m, t⟩ := cmt
    rw [hloop] at h
    simp only [Option.some.injEq] at h
    obtain ⟨k, hk, hfail, hsucc, ht⟩ := get_primitive_loop_some hloop
    obtain rfl := h
    exact ⟨k, hk, hfail, hsucc, ht, rfl, rfl⟩

lemma iterTolTrace_succ (C : Collaborators) (cell : Cell) (angle : ℚ) (n : ℕ) (tol : ℚ)
    (pt : List Vec3) :
    iterTolTrace C cell angle (n + 1) tol pt = tol ::
      (match get_primitive_lattice_vectors (get_translation_candidates pt) cell tol with
      | some _ => []
      | none =>
        match C.sym_reduce_pure_translation cell pt tol angle with
        | none => []
        | some reduced => iterTolTrace C cell angle n (tol * REDUCE_RATE) reduced) := rfl

lemma iterTolTrace_getD {C : Collaborators} {cell : Cell} {angle : ℚ} :
    ∀ {fuel : ℕ} {tol : ℚ} {pt : List Vec3} {i : ℕ},
      i < (iterTolTrace C cell angle fuel tol pt).length →
      (iterTolTrace C cell angle fuel tol pt).getD i 0 = tol * REDUCE_RATE ^ i := by
  intro fuel
  induction fuel with
  | zero => intro tol pt i hi; simp [iterTolTrace] at hi
  | succ n ih =>
    intro tol pt i hi
    rw [iterTolTrace_succ] at hi ⊢
    cases i with
    | zero => simp
    | succ i' =>
      simp only [List.getD_cons_succ]
      simp only [List.length_cons, Nat.succ_lt_succ_iff] at hi
      cases hsb : get_primitive_lattice_vectors (get_translation_candidates pt) cell tol with
      | some prim => simp only [hsb] at hi; simp at hi
      | none =>
        simp only [hsb] at hi ⊢
        cases hred : C.sym_reduce_pure_translation cell pt tol angle with
        | none => simp only [hred] at hi; simp at hi
        | some reduced =>
          simp only [hred] at hi ⊢
          rw [ih hi, pow_succ']
          ring

lemma pow_nineteen_twentieth_le_one (k : ℕ) :
    (0:ℚ) < ((19:ℚ)/20) ^ k ∧ ((19:ℚ)/20) ^ k ≤ 1 := by
  induction k with
  | zero => norm_num
  | succ n ih =>
    rw [pow_succ]
    constructor
    · positivity
    · nlinarith [ih.1, ih.2]

lemma pow_nineteen_twentieth_lt_one {k : ℕ} (hk : 0 < k) : ((19:ℚ)/20) ^ k < 1 := by
  cases k with
  | zero => omega
  | succ n =>
    have h := pow_nineteen_twentieth_le_one n
    rw [pow_succ]
    nlinarith [h.1, h.2]

section
attribute [local semireducible] Rat.add Rat.mul Rat.inv Rat.sub

/-- C1 (amended): in the Stage B triple search, index triples with i < j < k
are enumerated in lexicographic index order and the first triple whose
Cartesian volume V exceeds the tolerance and whose round(V0 / V) equals the
candidate count minus two (not the group order minus two; the candidate count
is the group order plus two) is accepted; triples with V at most the
tolerance are skipped; if no triple qualifies the search fails. -/
theorem C1_stageB_first_qualifying_triple (vectors : List Vec3) (cell : Cell) (symprec : ℚ) :
    (∀ i j k, stageBFind vectors cell symprec = some (i, j, k) →
      (i < j ∧ j < k ∧ k < vectors.length) ∧
      stageBQual vectors cell symprec (i, j, k) = true ∧
      (get_primitive_lattice_vectors vectors cell symprec).isSome = true ∧
      (∀ i' j' k', i' < j' → j' < k' → k' < vectors.length →
        stageBQual vectors cell symprec (i', j', k') = true →
        (i, j, k) = (i', j', k') ∨ lexLt (i, j, k) (i', j', k'))) ∧
    (stageBFind vectors cell symprec = none ↔
      ∀ i j k, i < j → j < k → k < vectors.length →
        stageBQual vectors cell symprec (i, j, k) = false) ∧
    (get_primitive_lattice_vectors vectors cell symprec = none ↔
      stageBFind vectors cell symprec = none) := by
  refine ⟨?_, ?_, ?_⟩
  · intro i j k hfind
    have hmem := List.mem_of_find?_eq_some hfind
    have hq := List.find?_some hfind
    refine ⟨mem_triples.mp hmem, hq, ?_, ?_⟩
    · unfold get_primitive_lattice_vectors
      rw [hfind]
      rfl
    · intro i' j' k' hij hjk hkn hq'
      rcases find?_first (triples_pairwise vectors.length) hfind (i', j', k')
          (mem_triples.mpr ⟨hij, hjk, hkn⟩) hq' with h | h
      · exact Or.inl h.symm
      · exact Or.inr h
  · unfold stageBFind
    rw [List.find?_eq_none]
    constructor
    · intro h i j k hij hjk hkn
      have := h (i, j, k) (mem_triples.mpr ⟨hij, hjk, hkn⟩)
      simpa using this
    · rintro h ⟨i, j, k⟩ ht
      obtain ⟨hij, hjk, hkn⟩ := mem_triples.mp ht
      simp [h i j k hij hjk hkn]
  · unfold get_primitive_lattice_vectors
    cases h : stageBFind vectors cell symprec <;> simp

/-- Witness for C1: on the candidate list built from the order-2 translation
group, the search accepts triple (0, 2, 3), which qualifies, is in range, and
is lexicographically first among qualifying triples. -/
theorem C1_witness :
    ((0:ℕ) < 2 ∧ (2:ℕ) < 3 ∧ 3 < cands4.length) ∧
    stageBQual cands4 cellI (1/100) (0, 2, 3) = true ∧
    (get_primitive_lattice_vectors cands4 cellI (1/100)).isSome = true ∧
    (∀ i' j' k', i' < j' → j' < k' → k' < cands4.length →
      stageBQual cands4 cellI (1/100) (i', j', k') = true →
      ((0:ℕ), (2:ℕ), (3:ℕ)) = (i', j', k') ∨ lexLt (0, 2, 3) (i', j', k')) :=
  (C1_stageB_first_qualifying_triple cands4 cellI (1/100)).1 0 2 3 (by decide)

/-- Counterexample for C1 as stated: with the order-2 translation group
(identity and (1/2,0,0)) on the identity lattice, the source search succeeds
(acceptance target = candidate count minus two = 2 = group order), while the
claim's reading (target = group order minus two = 0) finds no qualifying
triple and fails. -/
theorem C1_counterexample :
    (get_primitive_lattice_vectors cands4 cellI (1/100)).isSome = true ∧
    get_primitive_lattice_vectors_claimed 2 cands4 cellI (1/100) = none := by
  exact ⟨by decide, by decide⟩

/-- C2: get_primitive makes at most 20 attempts; attempt k uses tolerance
symprec * 0.95^k; on success the returned tolerance is that of the succeeding
attempt, hence at most symprec, and strictly below symprec exactly when at
least one earlier attempt failed. -/
theorem C2_tolerance_schedule (C : Collaborators) (cell : Cell) (symprec angle : ℚ)
    (hs : 0 < symprec) (p : Primitive)
    (h : get_primitive C cell symprec angle true = some p) :
    ∃ k, k < 20 ∧
      (∀ j, j < k → get_primitive_attempt C cell (symprec * ((19:ℚ)/20) ^ j) angle = none) ∧
      get_primitive_attempt C cell (symprec * ((19:ℚ)/20) ^ k) angle
        = some (p.cell, p.mapping_table) ∧
      p.tolerance = symprec * ((19:ℚ)/20) ^ k ∧
      p.tolerance ≤ symprec ∧
      (p.tolerance < symprec ↔ 0 < k) := by
  obtain ⟨k, hk, hfail, hsucc, ht, _, _⟩ := get_primitive_spec h
  have hrr : REDUCE_RATE = ((19:ℚ)/20) := rfl
  simp only [hrr] at hfail hsucc ht
  have hple := pow_nineteen_twentieth_le_one k
  refine ⟨k, hk, hfail, hsucc, ht, ?_, ?_⟩
  · rw [ht]
    nlinarith [hple.1, hple.2]
  · rw [ht]
    constructor
    · intro hlt
      rcases Nat.eq_zero_or_pos k with rfl | hpos
      · simp at hlt
      · exact hpos
    · intro hpos
      have hlt := pow_nineteen_twentieth_lt_one hpos
      nlinarith [hple.1]

/-- Witness for C2: the trivial collaborators succeed at the first attempt
with tolerance 1. -/
theorem C2_witness :
    ∃ k, k < 20 ∧
      (∀ j, j < k →
        get_primitive_attempt trivCollab cellI ((1:ℚ) * ((19:ℚ)/20) ^ j) (-1) = none) ∧
      get_primitive_attempt trivCollab cellI ((1:ℚ) * ((19:ℚ)/20) ^ k) (-1)
        = some (p0.cell, p0.mapping_table) ∧
      p0.tolerance = (1:ℚ) * ((19:ℚ)/20) ^ k ∧
      p0.tolerance ≤ 1 ∧
      (p0.tolerance < 1 ↔ 0 < k) :=
  C2_tolerance_schedule trivCollab cellI 1 (-1) (by norm_num) p0 rfl

/-- C3: on every successful call of prm_get_primitive, the transform is
computed as T = primitive.lattice * inverse(original.lattice), and (for a
nonsingular original lattice) satisfies T * original.lattice =
primitive.lattice. -/
theorem C3_transform_consistency (C : Collaborators) (cell : Cell) (symprec angle : ℚ)
    (p : Primitive) (h : prm_get_primitive C cell symprec angle true = some p)
    (hdet : det3 cell.lattice ≠ 0) :
    p.t_mat = matMul p.cell.lattice (matInv cell.lattice) ∧
    matMul p.t_mat cell.lattice = p.cell.lattice := by
  unfold prm_get_primitive at h
  obtain ⟨_, _, _, _, _, _, htm⟩ := get_primitive_spec h
  refine ⟨htm, ?_⟩
  rw [htm, matMul_matInv_cancel _ _ hdet]

/-- Witness for C3: concrete run with identity lattice. -/
theorem C3_witness :
    p0.t_mat = matMul p0.cell.lattice (matInv cellI.lattice) ∧
    matMul p0.t_mat cellI.lattice = p0.cell.lattice :=
  C3_transform_consistency trivCollab cellI 1 (-1) p0 rfl (by decide)

/-- C4: prm_get_primitive is all-or-nothing: if all 20 attempts fail the
result is NULL, and an allocation failure of the result record yields NULL no
matter what the collaborators would do (no search attempt is consulted). -/
theorem C4_all_or_nothing (C : Collaborators) (cell : Cell) (symprec angle : ℚ) :
    ((∀ k, k < 20 → get_primitive_attempt C cell (symprec * ((19:ℚ)/20) ^ k) angle = none) →
      prm_get_primitive C cell symprec angle true = none) ∧
    (∀ C' : Collaborators, prm_get_primitive C' cell symprec angle false = none) := by
  constructor
  · intro hfail
    unfold prm_get_primitive get_primitive
    simp only [if_true]
    rw [@get_primitive_loop_none C cell angle NUM_ATTEMPT symprec (fun k hk => hfail k hk)]
  · intro C'
    rfl

/-- Witness for C4: with collaborators whose translation search always fails,
every attempt fails and the result is NULL; with a failed allocation the
result is NULL as well. -/
theorem C4_witness :
    prm_get_primitive failCollab cellI 1 (-1) true = none ∧
    prm_get_primitive failCollab cellI 1 (-1) false = none :=
  ⟨(C4_all_or_nothing failCollab cellI 1 (-1)).1 (fun _ _ => rfl),
   (C4_all_or_nothing failCollab cellI 1 (-1)).2 failCollab⟩

/-- C5: if the pure-translation group found at the succeeding tolerance has
exactly one member, the returned primitive cell has the input's atom count
and the mapping table is the identity permutation. -/
theorem C5_trivial_group_identity_mapping (C : Collaborators) (cell : Cell)
    (symprec angle : ℚ) (p : Primitive)
    (h : get_primitive C cell symprec angle true = some p)
    (pt : List Vec3) (hsym : C.sym_get_pure_translation cell p.tolerance = some pt)
    (hlen : pt.length = 1) :
    p.cell.size = cell.size ∧ p.mapping_table = List.range cell.size := by
  obtain ⟨k, hk, hfail, hsucc, ht, _, _⟩ := get_primitive_spec h
  rw [← ht] at hsucc
  unfold get_primitive_attempt at hsucc
  simp only [hsym] at hsucc
  rw [if_pos hlen] at hsucc
  cases hcs : get_cell_with_smallest_lattice C cell p.tolerance with
  | none => simp [hcs] at hsucc
  | some c =>
    simp only [hcs, Option.some.injEq, Prod.mk.injEq] at hsucc
    obtain ⟨hc, hm⟩ := hsucc
    refine ⟨?_, hm.symm⟩
    rw [← hc]
    exact (get_cell_with_smallest_lattice_facts hcs).1

/-- Witness for C5: the trivial collaborators return a one-element group, and
the result keeps the single atom with the identity mapping. -/
theorem C5_witness :
    p0.cell.size = cellI.size ∧ p0.mapping_table = List.range cellI.size :=
  C5_trivial_group_identity_mapping trivCollab cellI 1 (-1) p0 rfl [vzero] rfl rfl

/-- C6: for a translation list of size m at least 1, the candidate set is the
m - 1 translations after the first (identity) entry followed by the three
unit lattice vectors, so it has exactly m + 2 vectors. -/
theorem C6_candidate_count (pt : List Vec3) (h : 1 ≤ pt.length) :
    get_translation_candidates pt = pt.drop 1 ++ [unitVec 0, unitVec 1, unitVec 2] ∧
    (get_translation_candidates pt).length = pt.length + 2 := by
  cases pt with
  | nil => simp at h
  | cons v rest =>
    refine ⟨?_, ?_⟩
    · rw [get_translation_candidates_cons]
      rfl
    · rw [get_translation_candidates_cons]
      simp only [List.length_append, List.length_cons, List.length_nil]

/-- Witness for C6: the order-2 list yields 2 + 2 = 4 candidates. -/
theorem C6_witness :
    get_translation_candidates ptOrder2
      = ptOrder2.drop 1 ++ [unitVec 0, unitVec 1, unitVec 2] ∧
    (get_translation_candidates ptOrder2).length = ptOrder2.length + 2 :=
  C6_candidate_count ptOrder2 (by decide)

/-- C7 (amended): inside one call of the iterative Stage A search, the
tolerance read by iteration i (and passed to both the Stage B search and the
refinement collaborator, which read the same variable) is symprec * 0.95^i:
the tolerance decays after every failed iteration inside this stage, in
addition to the decay between whole attempts one level up. -/
theorem C7_intra_stage_tolerance (C : Collaborators) (cell : Cell) (pure_trans : List Vec3)
    (symprec angle : ℚ) (i : ℕ)
    (hi : i < (iterTolTrace C cell angle 20 symprec pure_trans).length) :
    (iterTolTrace C cell angle 20 symprec pure_trans).getD i 0
      = symprec * ((19:ℚ)/20) ^ i :=
  iterTolTrace_getD hi

/-- Witness for C7: a run whose first iteration fails reads tolerance
(1/2) * (19/20) in its second iteration. -/
theorem C7_witness :
    (1 : ℕ) < (iterTolTrace idReduceCollab cellI (-1) 20 (1/2) ptOrder2).length ∧
    (iterTolTrace idReduceCollab cellI (-1) 20 (1/2) ptOrder2).getD 1 0
      = (1/2 : ℚ) * ((19:ℚ)/20) ^ 1 :=
  ⟨by decide, C7_intra_stage_tolerance idReduceCollab cellI ptOrder2 (1/2) (-1) 1 (by decide)⟩

/-- Counterexample for C7 as stated: with symprec = 1/2 and the order-2 group,
the accepting triple's volume 1/2 is within tolerance at iteration 0, so
iteration 0 fails; the source search succeeds at iteration 1 because the
intra-stage tolerance has decayed to 19/40, while the claim's
constant-tolerance reading fails all 20 iterations. -/
theorem C7_counterexample :
    get_primitive_lattice_vectors_iterative idReduceCollab cellI ptOrder2 (1/2) (-1)
      ≠ none ∧
    get_primitive_lattice_vectors_iterative_claimed idReduceCollab cellI ptOrder2 (1/2) (-1)
      = none := by
  exact ⟨by decide, by decide⟩

/-- C8 (amended): after Stage B accepts a triple, the inverted and rounded
integer matrix replaces the raw relation exactly when its integer determinant
magnitude equals the candidate count minus two (the group order, not the
group order minus two); otherwise the raw triple is used, and the search
returns success in both cases. -/
theorem C8_integer_cleanup (vectors : List Vec3) (cell : Cell) (symprec : ℚ)
    (t : ℕ × ℕ × ℕ) (hfind : stageBFind vectors cell symprec = some t) :
    get_primitive_lattice_vectors vectors cell symprec
      = some (matMul cell.lattice (cleanupRel vectors.length (relFromTriple vectors t))) ∧
    (|det3i (matNint3 (matInv (relFromTriple vectors t)))| = (vectors.length : ℤ) - 2 →
      cleanupRel vectors.length (relFromTriple vectors t)
        = matInv (castMat (matNint3 (matInv (relFromTriple vectors t))))) ∧
    (|det3i (matNint3 (matInv (relFromTriple vectors t)))| ≠ (vectors.length : ℤ) - 2 →
      cleanupRel vectors.length (relFromTriple vectors t) = relFromTriple vectors t) := by
  refine ⟨?_, ?_, ?_⟩
  · unfold get_primitive_lattice_vectors
    rw [hfind]
  · intro hd
    unfold cleanupRel
    rw [if_pos hd]
  · intro hd
    unfold cleanupRel
    rw [if_neg hd]

/-- Witness for C8: the perturbed order-2 candidates accept triple (0, 2, 3)
and the search returns the cleaned lattice. -/
theorem C8_witness :
    stageBFind candsNoisy cellI (1/100) = some (0, 2, 3) ∧
    get_primitive_lattice_vectors candsNoisy cellI (1/100)
      = some (matMul cellI.lattice
          (cleanupRel candsNoisy.length (relFromTriple candsNoisy (0, 2, 3)))) :=
  ⟨by decide, (C8_integer_cleanup candsNoisy cellI (1/100) (0, 2, 3) (by decide)).1⟩

/-- Counterexample for C8 as stated: on the perturbed order-2 candidates the
rounded integer matrix has determinant 2 = candidate count minus two, so the
source replaces the raw relation; under the claim's reading (target = group
order minus two = 0) the raw relation would be kept, and the two outputs
differ. -/
theorem C8_counterexample :
    (get_primitive_lattice_vectors candsNoisy cellI (1/100)).isSome = true ∧
    (get_primitive_lattice_vectors_claimedCleanup 2 candsNoisy cellI (1/100)).isSome = true ∧
    get_primitive_lattice_vectors candsNoisy cellI (1/100)
      ≠ get_primitive_lattice_vectors_claimedCleanup 2 candsNoisy cellI (1/100) := by
  exact ⟨by decide, by decide, by decide⟩

/-- C9: when the trivial-path lattice reduction succeeds, the output keeps the
types and the atom count, takes the reduced lattice, re-expresses every
position through the change-of-basis matrix, and folds every coordinate into
the interval from 0 inclusive to 1 exclusive. -/
theorem C9_smallest_lattice_frame (C : Collaborators) (cell : Cell) (symprec : ℚ)
    (out : Cell) (h : get_cell_with_smallest_lattice C cell symprec = some out) :
    out.types = cell.types ∧
    out.size = cell.size ∧
    (∃ min_lattice, C.del_delaunay_reduce cell.lattice symprec = some min_lattice ∧
      out.lattice = min_lattice ∧
      out.position = cell.position.map
        (fun p i => Dmod1 (mulVec (matMul (matInv min_lattice) cell.lattice) p i))) ∧
    (∀ p ∈ out.position, ∀ i, 0 ≤ p i ∧ p i < 1) := by
  unfold get_cell_with_smallest_lattice at h
  cases hd : C.del_delaunay_reduce cell.lattice symprec with
  | none => rw [hd] at h; cases h
  | some min_lattice =>
    rw [hd] at h
    simp only [Option.some.injEq] at h
    obtain rfl := h.symm
    refine ⟨rfl, by simp [Cell.size], ⟨min_lattice, rfl, rfl, rfl⟩, ?_⟩
    intro p hp i
    simp only [List.mem_map] at hp
    obtain ⟨q, _, rfl⟩ := hp
    exact ⟨Dmod1_nonneg _, Dmod1_lt_one _⟩

/-- Witness for C9: reducing the identity-lattice single-atom cell returns the
cell itself, with all folded coordinates in range. -/
theorem C9_witness :
    cell0.types = cellI.types ∧
    cell0.size = cellI.size ∧
    (∃ min_lattice, trivCollab.del_delaunay_reduce cellI.lattice 1 = some min_lattice ∧
      cell0.lattice = min_lattice ∧
      cell0.position = cellI.position.map
        (fun p i => Dmod1 (mulVec (matMul (matInv min_lattice) cellI.lattice) p i))) ∧
    (∀ p ∈ cell0.position, ∀ i, 0 ≤ p i ∧ p i < 1) :=
  C9_smallest_lattice_frame trivCollab cellI 1 cell0 rfl

/-- C10 (amended): get_translation_candidates drops exactly the first list
entry, by position and independently of its value, emitting the remaining
translations in order followed by the three unit lattice vectors; the Stage B
lexicographic enumeration however interleaves all-translation triples with
triples that involve a unit lattice vector, so the former are not always
tested first. -/
theorem C10_positional_exclusion (v w : Vec3) (pt : List Vec3) :
    get_translation_candidates (v :: pt) = pt ++ [unitVec 0, unitVec 1, unitVec 2] ∧
    get_translation_candidates (v :: pt) = get_translation_candidates (w :: pt) := by
  refine ⟨get_translation_candidates_cons v pt, ?_⟩
  rw [get_translation_candidates_cons, get_translation_candidates_cons]

/-- Counterexample for C10's ordering consequence: on the candidates of the
5-element translation list pt5, the accepted triple (0, 1, 6) involves the
unit lattice vector at index 6 (the translations occupy indices below 4),
even though the all-translation triple (1, 2, 3) also qualifies. -/
theorem C10_counterexample :
    stageBFind cands7 cellI (1/100) = some (0, 1, 6) ∧
    stageBQual cands7 cellI (1/100) (1, 2, 3) = true ∧
    pt5.length - 1 ≤ 6 ∧ 3 < pt5.length - 1 := by
  exact ⟨by decide, by decide, by decide, by decide⟩

end

end Spglib
